import Mathlib

/-!
# Verification of `ceci/monitor.py` (`MemoryMonitor`)

Shallow embedding of the memory monitor in `src/ceci/monitor.py`.

Modelling conventions:

* A psutil process handle is observed at a sampling instant as a `ProcTree`:
  each node records the outcome of `memory_info()` on that process
  (`none` models the call raising `psutil.NoSuchProcess` or
  `psutil.AccessDenied`; the code treats the two identically everywhere),
  a flag recording whether `children(recursive=True)` on that node raises
  one of the same two exceptions, and the list of child processes.
* Byte counts are natural numbers; the gigabyte values the program computes
  (Python floats obtained by dividing by `1e9`) are modelled as exact
  rationals, with the division by `1e9` written as division by
  `1000000000 : ℚ`.
* A printed line is an `OutLine` carrying the exact numeric values that the
  f-strings of the source interpolate (3-decimal formatting of those values
  is presentation only and is not modelled).
* An operation out of which a psutil exception propagates uncaught is
  modelled as returning `none`.
-/

/-- Result of `memory_info()`: resident set size and virtual memory size,
in bytes (`mem.rss`, `mem.vms`). -/
structure ProcInfo where
  rss : Nat
  vms : Nat
deriving DecidableEq

/-- A process and its descendants as observed at one sampling instant.
`memInfo = none` models `memory_info()` raising `NoSuchProcess`/`AccessDenied`;
`childrenErr = true` models `children(recursive=True)` raising one of the
same exceptions on this node. -/
inductive ProcTree : Type where
  | mk (memInfo : Option ProcInfo) (childrenErr : Bool) (children : List ProcTree)

/-- Outcome of `memory_info()` on the root of the handle. -/
def memInfoOf : ProcTree → Option ProcInfo
  | .mk mi _ _ => mi

/-- Whether `children(recursive=True)` raises on this handle. -/
def childrenErrOf : ProcTree → Bool
  | .mk _ e _ => e

/-- The direct children of the handle. -/
def childrenOf : ProcTree → List ProcTree
  | .mk _ _ cs => cs

mutual
/-- All descendants of a process, at every depth, as enumerated by
`p.children(recursive=True)` (the root itself is not included). -/
def descendants : ProcTree → List ProcTree
  | .mk _ _ cs => descendantsList cs
/-- All members of a forest together with their descendants. -/
def descendantsList : List ProcTree → List ProcTree
  | [] => []
  | c :: cs => c :: (descendants c ++ descendantsList cs)
end

/-- The body of the `for child in p.children(recursive=True)` loop of
`get_total_rss_gb` (monitor.py lines 103-109): add the child's `rss` to
the running total, or `continue` past a child whose `memory_info()`
raises `NoSuchProcess`/`AccessDenied`. -/
def addChildRss (total_rss : Nat) (child : ProcTree) : Nat :=
  match memInfoOf child with
  | none => total_rss
  | some child_mem => total_rss + child_mem.rss

/-- `MemoryMonitor.get_total_rss_gb(p)` (monitor.py lines 82-116).

Mirrors the source:
* outer `try`: `p.memory_info()` raising `NoSuchProcess`/`AccessDenied`
  is caught and `0.0` is returned;
* inner `try`: `p.children(recursive=True)` raising one of the same two
  exceptions is caught with `pass`, leaving only the root's own `rss`;
* innermost `try` (`addChildRss`): a child whose `memory_info()` raises
  is skipped with `continue`;
* the byte total is divided by `1e9` (decimal gigabytes). -/
def get_total_rss_gb (p : ProcTree) : ℚ :=
  match memInfoOf p with
  | none => 0
  | some mem =>
    let total_rss : Nat :=
      if childrenErrOf p then
        mem.rss
      else
        (descendants p).foldl addChildRss mem.rss
    (total_rss : ℚ) / 1000000000

/-- The mutable state of a `MemoryMonitor` (monitor.py lines 31-34).
The `process` field of the source (a handle to the current process) is not
stored: the observed state of that handle is passed to each operation as a
`ProcTree` snapshot. -/
structure MemoryMonitor where
  should_continue : Bool
  interval : ℚ
  max_total_rss : ℚ
deriving DecidableEq

/-- `MemoryMonitor.__init__(interval)` (monitor.py lines 22-34). -/
def MemoryMonitor.init (interval : ℚ) : MemoryMonitor :=
  { should_continue := true, interval := interval, max_total_rss := 0 }

/-- Ambient system state read by `log`: `psutil.virtual_memory().available`. -/
structure SysState where
  avail : Nat
deriving DecidableEq

/-- One line printed to standard output, carrying the numeric values the
source interpolates: the per-sample report of `log` (target rss, tree
total, target vms, system available memory, all in GB) or the peak summary
line printed by `stop` and at the end of `_run`. -/
inductive OutLine : Type where
  | report (rss total_rss vms avail : ℚ)
  | summary (peak : ℚ)
deriving DecidableEq

/-- `MemoryMonitor.log(p)` (monitor.py lines 118-150).

`p.memory_info()` is called with no surrounding `try`: if it raises (the
target has exited or access is denied) the exception propagates out of
`log`, modelled as `none`. Otherwise the per-process and tree-total GB
values are computed, the peak is raised when the observed total strictly
exceeds it (line 138), and one report line is printed. -/
def log (self : MemoryMonitor) (p : ProcTree) (sys : SysState) :
    Option (MemoryMonitor × OutLine) :=
  match memInfoOf p with
  | none => none
  | some mem =>
    let rss : ℚ := (mem.rss : ℚ) / 1000000000
    let vms : ℚ := (mem.vms : ℚ) / 1000000000
    let total_rss : ℚ := get_total_rss_gb p
    let self' : MemoryMonitor :=
      if total_rss > self.max_total_rss then
        { self with max_total_rss := total_rss }
      else self
    let avail : ℚ := (sys.avail : ℚ) / 1000000000
    some (self', .report rss total_rss vms avail)

/-- `MemoryMonitor.stop()` (monitor.py lines 53-80).

Clears `should_continue`, takes one final sample with `get_total_rss_gb`
(the surrounding `try` of the source cannot fire in the model because
`get_total_rss_gb` already catches `NoSuchProcess`/`AccessDenied`
internally and is total), raises the peak when that sample strictly
exceeds it, and prints exactly one summary line with the resulting peak.
It returns immediately after this bookkeeping: it never consults or waits
for the sampling task. -/
def stop (self : MemoryMonitor) (p : ProcTree) :
    MemoryMonitor × List OutLine :=
  let self1 : MemoryMonitor := { self with should_continue := false }
  let final_total : ℚ := get_total_rss_gb p
  let self2 : MemoryMonitor :=
    if final_total > self1.max_total_rss then
      { self1 with max_total_rss := final_total }
    else self1
  (self2, [.summary self2.max_total_rss])

/-- The environment of one iteration of the `_run` loop: whether
`threading.main_thread().is_alive()` returns true at the top-of-loop
check, whether a concurrent `stop()` call has flipped `should_continue`
to false before this iteration reads it, and the snapshot of the process
tree and system state this iteration would sample. -/
structure RunStep where
  mainAlive : Bool
  stopRequested : Bool
  tree : ProcTree
  sys : SysState

/-- The `while` loop of `MemoryMonitor._run` (monitor.py lines 156-160):
while the main thread is alive, break if `should_continue` is false,
otherwise `log` one sample and sleep. The finite schedule `steps` supplies
one `RunStep` per top-of-loop check; an exhausted schedule models the main
thread no longer being alive. `none` models an exception from `log`
propagating out and killing the sampling thread. -/
def runLoop (self : MemoryMonitor) (steps : List RunStep) :
    Option (MemoryMonitor × List OutLine) :=
  match steps with
  | [] => some (self, [])
  | s :: rest =>
    let self0 : MemoryMonitor :=
      if s.stopRequested then { self with should_continue := false } else self
    if s.mainAlive = false then some (self0, [])
    else if self0.should_continue = false then some (self0, [])
    else
      match log self0 s.tree s.sys with
      | none => none
      | some (self1, line) =>
        match runLoop self1 rest with
        | none => none
        | some (self2, lines) => some (self2, line :: lines)

/-- `MemoryMonitor._run` (monitor.py lines 152-167): run the sampling
loop, then — with no further sample being taken — print the summary line
reporting the stored peak, but only when that peak is strictly positive
(line 163). -/
def run (self : MemoryMonitor) (steps : List RunStep) :
    Option (MemoryMonitor × List OutLine) :=
  match runLoop self steps with
  | none => none
  | some (self', lines) =>
    some (self',
      lines ++
        (if self'.max_total_rss > 0 then [.summary self'.max_total_rss] else []))

/-- The post-loop behaviour of `_run` as the spec describes it (spec §4.2:
after exiting, the loop "takes one final sample directly", "updates the
peak if that final sample is larger, and prints a summary line reporting
the all-time peak"). `finalTree` is the snapshot that final sample would
observe. This definition follows the spec's words, for comparison with
`run`, which follows the source. -/
def run_spec (self : MemoryMonitor) (steps : List RunStep)
    (finalTree : ProcTree) : Option (MemoryMonitor × List OutLine) :=
  match runLoop self steps with
  | none => none
  | some (self', lines) =>
    let final_total : ℚ := get_total_rss_gb finalTree
    let self2 : MemoryMonitor :=
      if final_total > self'.max_total_rss then
        { self' with max_total_rss := final_total }
      else self'
    some (self2, lines ++ [.summary self2.max_total_rss])

/-- Iterate `log` over a sequence of observed snapshots, threading the
monitor state; `none` as soon as one `log` call raises. -/
def logMany (self : MemoryMonitor) (obs : List (ProcTree × SysState)) :
    Option MemoryMonitor :=
  match obs with
  | [] => some self
  | o :: rest =>
    match log self o.1 o.2 with
    | none => none
    | some (self', _) => logMany self' rest

/-- The total-resident value of each observation in a sequence, as
`get_total_rss_gb` computes it. -/
def sampleTotals (obs : List (ProcTree × SysState)) : List ℚ :=
  obs.map fun o => get_total_rss_gb o.1

/-- The two shared-memory accesses of one peak update
(`if total > self.max_total_rss: self.max_total_rss = total`,
monitor.py lines 138-139 in `log` and lines 71-72 in `stop`): writer A or
B first reads `max_total_rss` (the comparison), then conditionally writes
its own value (the assignment, executed when its value strictly exceeds
the peak it read). There is no lock or compare-and-set in the source, so
the two accesses of one writer may be separated by the other writer's. -/
inductive RaceEvent : Type where
  | readA
  | writeA
  | readB
  | writeB
deriving DecidableEq

/-- Shared state of the race model: the stored peak and the peak value
each writer has read so far (none before its read). -/
structure RaceState where
  peak : ℚ
  capA : Option ℚ
  capB : Option ℚ
deriving DecidableEq

/-- Effect of one access on the shared state, writer A holding sample
value `vA` and writer B holding `vB`. -/
def raceStep (vA vB : ℚ) (s : RaceState) (e : RaceEvent) : RaceState :=
  match e with
  | .readA => { s with capA := some s.peak }
  | .writeA =>
    match s.capA with
    | none => s
    | some c => if vA > c then { s with peak := vA } else s
  | .readB => { s with capB := some s.peak }
  | .writeB =>
    match s.capB with
    | none => s
    | some c => if vB > c then { s with peak := vB } else s

/-- Final stored peak after executing a schedule of the four accesses
from initial peak `init`. -/
def raceRun (vA vB init : ℚ) (sched : List RaceEvent) : ℚ :=
  (sched.foldl (raceStep vA vB) ⟨init, none, none⟩).peak

/-- A schedule is an interleaving of the two updates: each access occurs
exactly once and each writer reads before it writes. -/
def validSchedule (sched : List RaceEvent) : Prop :=
  sched.Perm [.readA, .writeA, .readB, .writeB] ∧
  sched.indexOf .readA < sched.indexOf .writeA ∧
  sched.indexOf .readB < sched.indexOf .writeB

/-! ## Helper lemmas -/

/-- The update `if v > pk: pk = v` of the source computes the maximum of
the stored peak and the observed value. -/
theorem ite_gt_eq_max (pk v : ℚ) : (if v > pk then v else pk) = max pk v := by
  rcases le_or_lt v pk with h | h
  · rw [if_neg (not_lt.mpr h), max_eq_left h]
  · rw [if_pos h, max_eq_right h.le]

/-- Folding `addChildRss` over a list of children adds exactly the `rss`
of the children whose `memory_info()` succeeds. -/
theorem foldl_addChildRss (l : List ProcTree) (init : Nat) :
    l.foldl addChildRss init =
      init + ((l.filterMap memInfoOf).map ProcInfo.rss).sum := by
  induction l generalizing init with
  | nil => simp
  | cons c l ih =>
    cases hm : memInfoOf c with
    | none => simp [addChildRss, hm, ih]
    | some cm => simp [addChildRss, hm, ih, Nat.add_assoc]

/-- Value of `get_total_rss_gb` on a handle whose own `memory_info()`
succeeds and whose `children(recursive=True)` call succeeds. -/
theorem get_total_some_eq (m : ProcInfo) (cs : List ProcTree) :
    get_total_rss_gb (.mk (some m) false cs) =
      ((m.rss + (((descendantsList cs).filterMap memInfoOf).map ProcInfo.rss).sum : ℕ) : ℚ)
        / 1000000000 := by
  simp [get_total_rss_gb, memInfoOf, childrenErrOf, descendants, foldl_addChildRss]

/-- `get_total_rss_gb` never returns a negative value. -/
theorem get_total_nonneg (p : ProcTree) : 0 ≤ get_total_rss_gb p := by
  rcases p with ⟨mi, e, cs⟩
  cases mi with
  | none => simp [get_total_rss_gb, memInfoOf]
  | some mem =>
    simp only [get_total_rss_gb, memInfoOf]
    positivity

/-- A successful `log` call raises the peak to the maximum of the stored
peak and the observed total, and changes no other field. -/
theorem log_peak {st : MemoryMonitor} {p : ProcTree} {sys : SysState}
    {r : MemoryMonitor × OutLine} (h : log st p sys = some r) :
    r.1.max_total_rss = max st.max_total_rss (get_total_rss_gb p) ∧
    r.1.should_continue = st.should_continue ∧
    r.1.interval = st.interval := by
  cases hm : memInfoOf p with
  | none => simp [log, hm] at h
  | some mem =>
    simp only [log, hm] at h
    rw [Option.some.injEq] at h
    subst h
    refine ⟨?_, ?_, ?_⟩ <;> simp only [] <;> split_ifs with hlt
    · exact (max_eq_right hlt.le).symm
    · exact (max_eq_left (not_lt.mp hlt)).symm
    · rfl
    · rfl
    · rfl
    · rfl

/-- `stop` raises the peak to the maximum of the stored peak and the
final observed total. -/
theorem stop_peak (st : MemoryMonitor) (p : ProcTree) :
    (stop st p).1.max_total_rss = max st.max_total_rss (get_total_rss_gb p) := by
  simp only [stop]
  split_ifs with hlt
  · exact (max_eq_right hlt.le).symm
  · exact (max_eq_left (not_lt.mp hlt)).symm

/-- Iterating `log` computes the running maximum of the observed totals. -/
theorem logMany_peak {obs : List (ProcTree × SysState)} :
    ∀ {st st' : MemoryMonitor}, logMany st obs = some st' →
      st'.max_total_rss = (sampleTotals obs).foldl max st.max_total_rss := by
  induction obs with
  | nil =>
    intro st st' h
    simp only [logMany, Option.some.injEq] at h
    subst h
    simp [sampleTotals]
  | cons o rest ih =>
    intro st st' h
    simp only [logMany] at h
    cases hl : log st o.1 o.2 with
    | none => rw [hl] at h; simp at h
    | some r =>
      rw [hl] at h
      simp only [] at h
      have hs : sampleTotals (o :: rest) = get_total_rss_gb o.1 :: sampleTotals rest := by
        simp [sampleTotals]
      rw [ih h, hs, List.foldl_cons, ← (log_peak hl).1]

/-- The left fold of `max` lands in the starting value or the list. -/
theorem foldl_max_mem (l : List ℚ) (a : ℚ) : l.foldl max a ∈ a :: l := by
  induction l generalizing a with
  | nil => simp
  | cons b l ih =>
    rw [List.foldl_cons]
    rcases max_choice a b with hc | hc <;> rw [hc]
    · rcases List.mem_cons.mp (ih a) with h1 | h1
      · simp [h1]
      · simp [List.mem_cons, Or.inr (Or.inr h1)]
    · rcases List.mem_cons.mp (ih b) with h1 | h1
      · simp [h1]
      · simp [List.mem_cons, Or.inr (Or.inr h1)]

/-- The starting value bounds the left fold of `max` from below. -/
theorem le_foldl_max (l : List ℚ) (a : ℚ) : a ≤ l.foldl max a := by
  induction l generalizing a with
  | nil => simp
  | cons b l ih => exact le_trans (le_max_left a b) (ih (max a b))

/-- Every list element bounds the left fold of `max` from below. -/
theorem foldl_max_ub (l : List ℚ) (a : ℚ) : ∀ v ∈ l, v ≤ l.foldl max a := by
  induction l generalizing a with
  | nil => simp
  | cons b l ih =>
    intro v hv
    rcases List.mem_cons.mp hv with rfl | hv
    · exact le_trans (le_max_right a v) (le_foldl_max l (max a v))
    · exact ih (max a b) v hv

/-- `filterMap` keeps every element of a list on which the function
succeeds. -/
theorem length_filterMap_memInfoOf {l : List ProcTree}
    (h : ∀ d ∈ l, (memInfoOf d).isSome = true) :
    (l.filterMap memInfoOf).length = l.length := by
  induction l with
  | nil => simp
  | cons c l ih =>
    cases hm : memInfoOf c with
    | none => exact absurd (h c (List.mem_cons_self c l)) (by simp [hm])
    | some cm =>
      simp only [List.filterMap_cons, hm, List.length_cons]
      rw [ih fun d hd => h d (List.mem_cons_of_mem c hd)]

/-- A successful `log` call prints a per-sample report line, never a
summary line. -/
theorem log_line_not_summary {st : MemoryMonitor} {p : ProcTree} {sys : SysState}
    {r : MemoryMonitor × OutLine} (h : log st p sys = some r) :
    ∀ q, r.2 ≠ OutLine.summary q := by
  cases hm : memInfoOf p with
  | none => simp [log, hm] at h
  | some mem =>
    simp only [log, hm] at h
    rw [Option.some.injEq] at h
    subst h
    intro q
    simp

/-- The loop of `_run` prints only per-sample report lines, never a
summary line. -/
theorem runLoop_no_summary {steps : List RunStep} :
    ∀ {st st' : MemoryMonitor} {lines : List OutLine},
      runLoop st steps = some (st', lines) → ∀ q, OutLine.summary q ∉ lines := by
  induction steps with
  | nil =>
    intro st st' lines h q
    simp only [runLoop, Option.some.injEq, Prod.mk.injEq] at h
    rw [← h.2]
    simp
  | cons s rest ih =>
    intro st st' lines h q
    simp only [runLoop] at h
    by_cases hma : s.mainAlive = false
    · rw [if_pos hma, Option.some.injEq, Prod.mk.injEq] at h
      rw [← h.2]
      simp
    · rw [if_neg hma] at h
      by_cases hsc :
          (if s.stopRequested then { st with should_continue := false } else st).should_continue
            = false
      · rw [if_pos hsc, Option.some.injEq, Prod.mk.injEq] at h
        rw [← h.2]
        simp
      · rw [if_neg hsc] at h
        cases hl : log (if s.stopRequested then { st with should_continue := false } else st)
            s.tree s.sys with
        | none => rw [hl] at h; simp at h
        | some r =>
          rw [hl] at h
          simp only [] at h
          cases hrl : runLoop r.1 rest with
          | none => rw [hrl] at h; simp at h
          | some t =>
            rw [hrl] at h
            simp only [Option.some.injEq, Prod.mk.injEq] at h
            rw [← h.2, List.mem_cons]
            push_neg
            refine ⟨fun hq => log_line_not_summary hl q hq.symm, ih hrl q⟩

/-- After the loop of `_run` finishes, the final state is the loop's
final state unchanged, and the output is the loop's report lines followed
by the summary line exactly when the stored peak is positive. -/
theorem run_decomp {st st' : MemoryMonitor} {steps : List RunStep} {lines : List OutLine}
    (h : run st steps = some (st', lines)) :
    ∃ lns, runLoop st steps = some (st', lns) ∧
      lines = lns ++
        (if st'.max_total_rss > 0 then [OutLine.summary st'.max_total_rss] else []) := by
  unfold run at h
  cases hrl : runLoop st steps with
  | none => rw [hrl] at h; simp at h
  | some t =>
    rw [hrl] at h
    simp only [Option.some.injEq, Prod.mk.injEq] at h
    refine ⟨t.2, ?_, ?_⟩
    · rw [← h.1]
    · rw [← h.2, ← h.1]

/-! ## Claims -/

/-- C1: the peak value `max_total_rss` is monotonically non-decreasing:
both writers (`log`, lines 136-139, and `stop`, lines 68-74) only
overwrite it when the newly observed total exceeds the stored value, and
for a monitor started with `__init__` (peak `0`) that `log`s a nonempty
sequence of samples, the stored peak is one of the observed totals and an
upper bound of all of them, i.e. it equals `max(v1..vn)`. -/
theorem c1_peak_monotone_equals_max (i : ℚ) (obs : List (ProcTree × SysState))
    (st' : MemoryMonitor) (hne : obs ≠ [])
    (h : logMany (MemoryMonitor.init i) obs = some st') :
    st'.max_total_rss ∈ sampleTotals obs ∧
    (∀ v ∈ sampleTotals obs, v ≤ st'.max_total_rss) ∧
    (∀ (st : MemoryMonitor) (p : ProcTree) (sys : SysState) (r : MemoryMonitor × OutLine),
      log st p sys = some r → st.max_total_rss ≤ r.1.max_total_rss) ∧
    (∀ (st : MemoryMonitor) (p : ProcTree),
      st.max_total_rss ≤ (stop st p).1.max_total_rss) := by
  have hpk := logMany_peak h
  obtain ⟨o, obs', rfl⟩ := List.exists_cons_of_ne_nil hne
  have hs : sampleTotals (o :: obs') = get_total_rss_gb o.1 :: sampleTotals obs' := by
    simp [sampleTotals]
  have h0 : max (MemoryMonitor.init i).max_total_rss (get_total_rss_gb o.1)
      = get_total_rss_gb o.1 := max_eq_right (get_total_nonneg o.1)
  rw [hs, List.foldl_cons, h0] at hpk
  refine ⟨?_, ?_, ?_, ?_⟩
  · rw [hs, hpk]
    exact foldl_max_mem _ _
  · intro v hv
    rw [hs] at hv
    rcases List.mem_cons.mp hv with rfl | hv
    · rw [hpk]
      exact le_foldl_max _ _
    · rw [hpk]
      exact foldl_max_ub _ _ v hv
  · intro st p sys r hr
    rw [(log_peak hr).1]
    exact le_max_left _ _
  · intro st p
    rw [stop_peak]
    exact le_max_left _ _

/-- Witness for C1: one sample of total `1` GB from the initial state
yields a stored peak of `1`, which is among the observed totals. -/
theorem c1_witness :
    (⟨true, 30, 1⟩ : MemoryMonitor).max_total_rss ∈
      sampleTotals [(.mk (some ⟨1000000000, 0⟩) false [], ⟨0⟩)] :=
  (c1_peak_monotone_equals_max 30 [(.mk (some ⟨1000000000, 0⟩) false [], ⟨0⟩)]
      ⟨true, 30, 1⟩ (by simp)
      (by norm_num [logMany, log, MemoryMonitor.init, get_total_rss_gb, memInfoOf,
        childrenErrOf, descendants, descendantsList, addChildRss])).1

/-- C2: on a handle whose root `memory_info()` succeeds with resident
size `R`, whose descendant enumeration succeeds, and all of whose
recursively enumerated descendants (every depth) are queryable,
`get_total_rss_gb` returns exactly `(R + sum ci) / 10^9`: the sum ranges
over the `memory_info()` results of all descendants, and the length
equality records that no descendant was dropped. -/
theorem c2_tree_aggregation_exact (m : ProcInfo) (cs : List ProcTree)
    (hq : ∀ d ∈ descendantsList cs, (memInfoOf d).isSome = true) :
    get_total_rss_gb (.mk (some m) false cs) =
      ((m.rss + (((descendantsList cs).filterMap memInfoOf).map ProcInfo.rss).sum : ℕ) : ℚ)
        / 1000000000 ∧
    ((descendantsList cs).filterMap memInfoOf).length = (descendantsList cs).length :=
  ⟨get_total_some_eq m cs, length_filterMap_memInfoOf hq⟩

/-- Witness for C2: a root of 2 GB with a 1 GB child nested above a
0.5 GB grandchild aggregates to exactly 3.5 GB. -/
theorem c2_witness :
    get_total_rss_gb (.mk (some ⟨2000000000, 0⟩) false
        [.mk (some ⟨1000000000, 0⟩) false [.mk (some ⟨500000000, 0⟩) false []]]) = 7/2 := by
  rw [(c2_tree_aggregation_exact ⟨2000000000, 0⟩
      [.mk (some ⟨1000000000, 0⟩) false [.mk (some ⟨500000000, 0⟩) false []]]
      (by decide)).1]
  norm_num [descendantsList, descendants, memInfoOf, List.filterMap_cons, List.filterMap_nil]

/-- C3: `get_total_rss_gb` degrades gracefully: a root whose
`memory_info()` raises yields `0` (for either state of the descendant
enumeration), and when the root succeeds, the total sums the root's
resident size with exactly the queryable descendants — a descendant whose
`memory_info()` raises is skipped (dropped by the `filterMap`) and the
remaining sum is still returned. -/
theorem c3_graceful_degradation :
    (∀ (e : Bool) (cs : List ProcTree), get_total_rss_gb (.mk none e cs) = 0) ∧
    (∀ (m : ProcInfo) (cs : List ProcTree),
      get_total_rss_gb (.mk (some m) false cs) =
        ((m.rss + (((descendantsList cs).filterMap memInfoOf).map ProcInfo.rss).sum : ℕ) : ℚ)
          / 1000000000) :=
  ⟨fun _ _ => rfl, fun m cs => get_total_some_eq m cs⟩

/-- Counterexample for C4. The claim says that whenever the loop in
`_run` exits it takes one final sample, raises the peak if that sample is
larger, and prints a summary line. On the code (`run`) this is false at
an explicit input: after one logged sample of 1 GB the loop exits while
the process tree holds 5 GB; the spec-worded post-loop behaviour
(`run_spec`) would report a peak of 5, but the code reports 1 and takes
no final sample. Moreover, after a single all-zero sample the code
prints no summary line at all, while the claim says one is always
printed (`run_spec` prints `summary 0`). -/
theorem c4_counterexample :
    run (MemoryMonitor.init 30)
        [⟨true, false, .mk (some ⟨1000000000, 0⟩) false [], ⟨0⟩⟩] =
      some (⟨true, 30, 1⟩, [.report 1 1 0 0, .summary 1]) ∧
    run_spec (MemoryMonitor.init 30)
        [⟨true, false, .mk (some ⟨1000000000, 0⟩) false [], ⟨0⟩⟩]
        (.mk (some ⟨5000000000, 0⟩) false []) =
      some (⟨true, 30, 5⟩, [.report 1 1 0 0, .summary 5]) ∧
    run (MemoryMonitor.init 30)
        [⟨true, false, .mk (some ⟨0, 0⟩) false [], ⟨0⟩⟩] =
      some (⟨true, 30, 0⟩, [.report 0 0 0 0]) ∧
    run_spec (MemoryMonitor.init 30)
        [⟨true, false, .mk (some ⟨0, 0⟩) false [], ⟨0⟩⟩]
        (.mk (some ⟨0, 0⟩) false []) =
      some (⟨true, 30, 0⟩, [.report 0 0 0 0, .summary 0]) := by
  refine ⟨?_, ?_, ?_, ?_⟩ <;>
    norm_num [run, run_spec, runLoop, log, MemoryMonitor.init, get_total_rss_gb,
      memInfoOf, childrenErrOf, descendants, descendantsList, addChildRss]

/-- C4 (amended): whenever the sampling loop in `_run` exits, for either
exit reason, the code takes no final sample — the state `_run` ends with
is exactly the state the loop ended with — and it prints a summary line
reporting the stored peak if and only if that peak is strictly positive
(appended after the loop's report lines). -/
theorem c4_amended_no_final_sample (st : MemoryMonitor) (steps : List RunStep) :
    (run st steps).map Prod.fst = (runLoop st steps).map Prod.fst ∧
    (∀ (st' : MemoryMonitor) (lines : List OutLine), run st steps = some (st', lines) →
      ∃ lns, runLoop st steps = some (st', lns) ∧
        lines = lns ++
          (if st'.max_total_rss > 0 then [OutLine.summary st'.max_total_rss] else [])) := by
  constructor
  · cases hrl : runLoop st steps with
    | none => simp [run, hrl]
    | some t => simp [run, hrl]
  · intro st' lines h
    exact run_decomp h

/-- Witness for C4 (amended): the one-sample schedule of the
counterexample, where the loop ends in peak `1` and `_run` appends the
summary line for the positive peak. -/
theorem c4_amended_witness :
    ∃ lns, runLoop (MemoryMonitor.init 30)
        [⟨true, false, .mk (some ⟨1000000000, 0⟩) false [], ⟨0⟩⟩] =
      some (⟨true, 30, 1⟩, lns) ∧
      [OutLine.report 1 1 0 0, OutLine.summary 1] = lns ++
        (if (⟨true, 30, 1⟩ : MemoryMonitor).max_total_rss > 0
          then [OutLine.summary (⟨true, 30, 1⟩ : MemoryMonitor).max_total_rss] else []) :=
  (c4_amended_no_final_sample (MemoryMonitor.init 30)
      [⟨true, false, .mk (some ⟨1000000000, 0⟩) false [], ⟨0⟩⟩]).2
    ⟨true, 30, 1⟩ [.report 1 1 0 0, .summary 1]
    (by norm_num [run, runLoop, log, MemoryMonitor.init, get_total_rss_gb,
      memInfoOf, childrenErrOf, descendants, descendantsList, addChildRss])

/-- C5: `stop` clears the should-continue flag, raises the stored peak to
the maximum of the stored value and its own final sample, prints exactly
one summary line stating the peak after accounting for that final sample,
leaves the interval unchanged, and — being a total function over every
snapshot, including one whose target has exited or is access-denied
(root `memInfo = none`) — surfaces no error to its caller. It returns
after this bookkeeping alone: its result never depends on the sampling
task's state. -/
theorem c5_stop_contract (st : MemoryMonitor) (p : ProcTree) :
    (stop st p).1.should_continue = false ∧
    (stop st p).1.max_total_rss = max st.max_total_rss (get_total_rss_gb p) ∧
    (stop st p).2 = [OutLine.summary ((stop st p).1.max_total_rss)] ∧
    (stop st p).1.interval = st.interval := by
  refine ⟨?_, stop_peak st p, rfl, ?_⟩
  · simp only [stop]
    split_ifs <;> rfl
  · simp only [stop]
    split_ifs <;> rfl

/-- Counterexample for C6. The claim says any interleaving of the two
peak updates (one from `stop`, one from the loop's `log`) keeps the
stored peak at least the maximum of the two observed values, the
read-modify-write being under a compare-and-set or mutual exclusion. The
source has no such synchronisation: in the valid interleaving where both
writers read the initial peak `0` before either writes, writer A (value
`5`) writes first and writer B (value `3`) overwrites it, the final
stored peak is `3 < max 5 3` — the higher value is lost. -/
theorem c6_counterexample :
    validSchedule [.readA, .readB, .writeA, .writeB] ∧
    raceRun 5 3 0 [.readA, .readB, .writeA, .writeB] = 3 ∧
    (3 : ℚ) < max 5 3 := by
  refine ⟨⟨by decide, by decide, by decide⟩, ?_, by norm_num⟩
  norm_num [raceRun, raceStep]

/-- C6 (amended): the peak update is an unsynchronised read followed by a
conditional write; when the two updates do not interleave (either writer
completes both accesses before the other starts), the stored peak after
both is exactly `max init (max vA vB)`, so no value is lost — but no
atomic compare-and-set or mutual exclusion protects interleaved
executions. -/
theorem c6_amended_serial_updates_keep_max (vA vB init : ℚ) :
    raceRun vA vB init [.readA, .writeA, .readB, .writeB] = max init (max vA vB) ∧
    raceRun vA vB init [.readB, .writeB, .readA, .writeA] = max init (max vA vB) := by
  constructor <;>
  · simp only [raceRun, List.foldl_cons, List.foldl_nil, raceStep]
    simp only [max_def]
    split_ifs <;> first | rfl | linarith

/-- C7: the per-sample report path `log` does not catch failures of the
target's own `memory_info()`: on a snapshot whose root raises, `log`
returns no result (the exception propagates uncaught, whatever the state
of the descendant enumeration), while the tree aggregation
`get_total_rss_gb` on the same snapshot is defensive and returns `0`. -/
theorem c7_log_uncaught_propagation (st : MemoryMonitor) (e : Bool)
    (cs : List ProcTree) (sys : SysState) :
    log st (.mk none e cs) sys = none ∧
    get_total_rss_gb (.mk none e cs) = 0 :=
  ⟨rfl, rfl⟩

/-- C8: gigabytes are decimal: a process of exactly 1,000,000,000
resident bytes aggregates to exactly `1` GB, the per-sample report line
carries `1` for it (and divides `vms` and available memory by the same
decimal factor), and the binary conversion (division by `2^30`) would
not give `1`. -/
theorem c8_decimal_gigabytes :
    get_total_rss_gb (.mk (some ⟨1000000000, 0⟩) false []) = 1 ∧
    log (MemoryMonitor.init 30) (.mk (some ⟨1000000000, 3000000000⟩) false [])
        ⟨500000000⟩ =
      some (⟨true, 30, 1⟩, .report 1 1 3 (1/2)) ∧
    (1000000000 : ℚ) / 1073741824 ≠ 1 := by
  refine ⟨?_, ?_, by norm_num⟩ <;>
    norm_num [log, MemoryMonitor.init, get_total_rss_gb, memInfoOf, childrenErrOf,
      descendants, descendantsList, addChildRss]

/-- C9: when the loop in `_run` ends normally (stop flag or host-thread
death), the summary line is printed if and only if the stored peak is
strictly positive; any summary line in the output reports exactly the
stored peak; and the state `_run` ends with is a state the loop itself
ended with — no final sample is taken on that path, so a monitor whose
every sample totalled zero exits silently. -/
theorem c9_summary_iff_positive_peak (st : MemoryMonitor) (steps : List RunStep)
    (st' : MemoryMonitor) (lines : List OutLine)
    (h : run st steps = some (st', lines)) :
    ((∃ q, OutLine.summary q ∈ lines) ↔ 0 < st'.max_total_rss) ∧
    (∀ q, OutLine.summary q ∈ lines → q = st'.max_total_rss) ∧
    (∃ lns, runLoop st steps = some (st', lns)) := by
  obtain ⟨lns, hrl, rfl⟩ := run_decomp h
  have hno := runLoop_no_summary hrl
  refine ⟨⟨?_, ?_⟩, ?_, ⟨lns, hrl⟩⟩
  · rintro ⟨q, hq⟩
    rcases List.mem_append.mp hq with hq | hq
    · exact absurd hq (hno q)
    · by_cases hp : st'.max_total_rss > 0
      · exact hp
      · rw [if_neg hp] at hq
        simp at hq
  · intro hp
    refine ⟨st'.max_total_rss, List.mem_append.mpr (Or.inr ?_)⟩
    rw [if_pos hp]
    simp
  · intro q hq
    rcases List.mem_append.mp hq with hq | hq
    · exact absurd hq (hno q)
    · by_cases hp : st'.max_total_rss > 0
      · rw [if_pos hp] at hq
        simpa using hq
      · rw [if_neg hp] at hq
        simp at hq

/-- Witness for C9: on a one-sample schedule observing 1 GB the loop
ends with peak `1 > 0`, and indeed the output contains a summary line. -/
theorem c9_witness :
    (∃ q, OutLine.summary q ∈
        [OutLine.report 1 1 0 0, OutLine.summary 1]) ↔
      0 < (⟨true, 30, 1⟩ : MemoryMonitor).max_total_rss :=
  (c9_summary_iff_positive_peak (MemoryMonitor.init 30)
      [⟨true, false, .mk (some ⟨1000000000, 0⟩) false [], ⟨0⟩⟩]
      ⟨true, 30, 1⟩ [.report 1 1 0 0, .summary 1]
      (by norm_num [run, runLoop, log, MemoryMonitor.init, get_total_rss_gb,
        memInfoOf, childrenErrOf, descendants, descendantsList, addChildRss])).1

/-- C10: `get_total_rss_gb` is total over anticipated failures — it is a
function returning a value on every snapshot, including exited and
access-denied processes — and its value is never negative; consequently
the peak stored by a successful `log` call and by `stop` is never
negative either (each equals a maximum over the non-negative observed
total). -/
theorem c10_total_and_nonneg (p : ProcTree) :
    0 ≤ get_total_rss_gb p ∧
    (∀ (st : MemoryMonitor) (sys : SysState) (r : MemoryMonitor × OutLine),
      log st p sys = some r → 0 ≤ r.1.max_total_rss) ∧
    (∀ st : MemoryMonitor, 0 ≤ (stop st p).1.max_total_rss) := by
  refine ⟨get_total_nonneg p, ?_, ?_⟩
  · intro st sys r hr
    rw [(log_peak hr).1]
    exact le_trans (get_total_nonneg p) (le_max_right _ _)
  · intro st
    rw [stop_peak]
    exact le_trans (get_total_nonneg p) (le_max_right _ _)

/-- Witness for C10: concrete non-negativity of the aggregate and of the
peak left by a concrete successful `log` call. -/
theorem c10_witness :
    0 ≤ get_total_rss_gb (.mk (some ⟨1000000000, 0⟩) false []) ∧
    0 ≤ (⟨true, 30, 1⟩ : MemoryMonitor).max_total_rss :=
  ⟨(c10_total_and_nonneg (.mk (some ⟨1000000000, 0⟩) false [])).1,
   (c10_total_and_nonneg (.mk (some ⟨1000000000, 0⟩) false [])).2.1
     (MemoryMonitor.init 30) ⟨0⟩ (⟨true, 30, 1⟩, .report 1 1 0 0)
     (by norm_num [log, MemoryMonitor.init, get_total_rss_gb, memInfoOf, childrenErrOf,
        descendants, descendantsList, addChildRss])⟩
